import Mathlib

/-!
# Verification of the avalanchego staker ledger core

Shallow embedding of the validator staker-set ledger: the `Staker` record and
its total ordering (`Staker.Less`), the staker lifecycle transitions
(`NewCurrentStaker`, `NewPendingStaker`, `ShiftStakerAheadInPlace`,
`Staker.EarliestStopTime`, `MarkStakerForRemovalInPlaceBeforeTime`), and the
weight-diff key/value codec (`marshalDiffKey`, `unmarshalDiffKey`,
`marshalWeightDiff`, `unmarshalWeightDiff`).

Modelling conventions:
* Go byte slices are `List Nat`; every byte the code ever writes is `< 256` by
  construction, which the well-formedness lemmas track explicitly.
* `time.Time` instants and `time.Duration` values are both modelled as `Int`
  (Go stores both as fixed-width integer counts); `Time.Before` is `<`,
  `Time.Add` is `+`, `Time.Equal` is `=`, `Time.Sub` is `-`.
* Go's `uint64` values are `Nat` with explicit `% 2 ^ 64` / `< 2 ^ 64` bounds.
* Fallible Go functions returning `(..., error)` become `Option`-valued
  functions (`none` is the error case).
-/

/-! ## Bytes and big-endian integers -/

/-- Go `binary.BigEndian.PutUint64`: the eight big-endian bytes of a 64-bit
value, most significant first. -/
def putUint64BE (n : Nat) : List Nat :=
  [n / 2 ^ 56 % 256, n / 2 ^ 48 % 256, n / 2 ^ 40 % 256, n / 2 ^ 32 % 256,
   n / 2 ^ 24 % 256, n / 2 ^ 16 % 256, n / 2 ^ 8 % 256, n % 256]

/-- Go `binary.BigEndian.Uint64`: read the first eight bytes as a big-endian
64-bit value. (In Go the caller guarantees at least eight bytes are present.) -/
def uint64BE (bs : List Nat) : Nat :=
  (bs.take 8).foldl (fun acc b => acc * 256 + b) 0

/-- Go `bytes.Compare`: lexicographic three-way comparison of byte slices,
returning -1, 0 or 1; a strict prefix sorts before its extensions. -/
def bytesCompare : List Nat → List Nat → Int
  | [], [] => 0
  | [], _ :: _ => -1
  | _ :: _, [] => 1
  | a :: as, b :: bs =>
    if a < b then -1
    else if b < a then 1
    else bytesCompare as bs

/-- The numeric value of a big-endian byte string (proof device used to
relate `bytesCompare` on encoded integers to their numeric order). -/
def beVal : List Nat → Nat
  | [] => 0
  | b :: bs => b * 256 ^ bs.length + beVal bs

/-- Go `^height` on a `uint64`: the bitwise complement, i.e. `2^64 - 1 - h`
for `h < 2^64` (the `% 2^64` makes the model total on `Nat`). -/
def flip64 (h : Nat) : Nat :=
  2 ^ 64 - 1 - h % 2 ^ 64

/-! ## Sizes of the persisted layout

Modelled from the spec: the constants `ids.IDLen` (32), `database.Uint64Size`
(8), `database.BoolSize` (1) and `database.BoolTrue` (0x01), and the node-ID
width 20, come from packages that are not under `src/`; the spec's byte-exact
layout table fixes them (subnetID 32 bytes, flipped height 8 bytes, nodeID 20
bytes, value = 1 boolean byte + 8 amount bytes, `0x01` = decrease). -/

/-- `ids.IDLen`: a subnet ID is 32 raw bytes. -/
def idLen : Nat := 32

/-- `database.Uint64Size`. -/
def uint64Size : Nat := 8

/-- `database.BoolSize`. -/
def boolSize : Nat := 1

/-- `database.BoolTrue`. -/
def boolTrue : Nat := 1

/-- `startDiffKeyLength = ids.IDLen + database.Uint64Size`. -/
def startDiffKeyLength : Nat := idLen + uint64Size

/-- `diffKeyNodeIDOffset = ids.IDLen + database.Uint64Size`. -/
def diffKeyNodeIDOffset : Nat := idLen + uint64Size

/-- `weightValueLength = database.BoolSize + database.Uint64Size`. -/
def weightValueLength : Nat := boolSize + uint64Size

/-! ## Diff key/value codec (Go `marshalDiffKey` etc.) -/

/-- Go `packIterableHeight`: the height is stored bit flipped, big endian, so
that lexicographic iteration visits decreasing heights. -/
def packIterableHeight (height : Nat) : List Nat :=
  putUint64BE (flip64 height)

/-- Go `unpackIterableHeight`: flip the bits back after reading. -/
def unpackIterableHeight (key : List Nat) : Nat :=
  flip64 (uint64BE key)

/-- Go `marshalDiffKey`: `subnetID (32) || ^height big-endian (8) || nodeID`.
The Go code copies `subnetID.Bytes()` (always exactly 32 bytes, as `ids.ID` is
a 32-byte array) into a zeroed buffer of length `40 + len(nodeID)`; under the
32-byte invariant that equals this concatenation. -/
def marshalDiffKey (subnetID : List Nat) (height : Nat) (nodeID : List Nat) :
    List Nat :=
  subnetID ++ packIterableHeight height ++ nodeID

/-- Go `unmarshalDiffKey`: fails (with `errUnexpectedZeroLenghtNodeID`) only
when the key is shorter than `startDiffKeyLength`; otherwise the first 32
bytes are the subnet ID, the next 8 the flipped height, and the entire
remaining suffix the node ID. (`ids.NodeIDFromBytes`, not under `src/`, is
modelled from the spec: the node ID is its "raw identifier bytes".) -/
def unmarshalDiffKey (key : List Nat) :
    Option (List Nat × Nat × List Nat) :=
  if key.length < startDiffKeyLength then
    none
  else
    some (key.take idLen,
          unpackIterableHeight (key.drop idLen),
          key.drop diffKeyNodeIDOffset)

/-- `ValidatorWeightDiff`: a signed weight delta (`Decrease` flag plus
unsigned `Amount`), as described by the spec's WeightDiff data model. -/
structure ValidatorWeightDiff where
  Decrease : Bool
  Amount : Nat
  deriving DecidableEq, Repr

/-- Go `marshalWeightDiff`: one boolean byte (`0x01` iff `Decrease`) followed
by the big-endian amount. -/
def marshalWeightDiff (diff : ValidatorWeightDiff) : List Nat :=
  (if diff.Decrease then boolTrue else 0) :: putUint64BE diff.Amount

/-- Go `unmarshalWeightDiff`: fails unless the value is exactly
`weightValueLength` bytes; `Decrease` is whether the first byte equals
`database.BoolTrue`. -/
def unmarshalWeightDiff (value : List Nat) : Option ValidatorWeightDiff :=
  if value.length ≠ weightValueLength then
    none
  else
    some { Decrease := value.headI = boolTrue
           Amount := uint64BE (value.drop boolSize) }

/-! ## Priorities

Modelled from the spec: `txs.Priority` (`priorities.go` is not under `src/`).
The spec describes it as "a small enumerated tag" whose numeric value breaks
ties, which "groups stakers created by the same transaction kind" and
"separates pending priorities from current priorities"; `earliestStopTime`
additionally distinguishes validators (vs delegators). We model the tag as an
enumeration over those axes, with an injective numeric ordinal (`toNat`) used
by the `<` comparisons in `Staker.Less`. -/

/-- The priority tag: pending vs current, validator vs delegator, primary
network vs subnet. -/
inductive Priority where
  | primaryValidatorPending
  | primaryDelegatorPending
  | subnetValidatorPending
  | subnetDelegatorPending
  | primaryValidatorCurrent
  | primaryDelegatorCurrent
  | subnetValidatorCurrent
  | subnetDelegatorCurrent
  deriving DecidableEq, Repr

/-- The numeric value of a priority tag (the Go `Priority` is a numeric
constant; `<` on priorities is `<` on these ordinals). -/
def Priority.toNat : Priority → Nat
  | .primaryValidatorPending => 0
  | .primaryDelegatorPending => 1
  | .subnetValidatorPending => 2
  | .subnetDelegatorPending => 3
  | .primaryValidatorCurrent => 4
  | .primaryDelegatorCurrent => 5
  | .subnetValidatorCurrent => 6
  | .subnetDelegatorCurrent => 7

/-- Go `Priority.IsPending`. -/
def Priority.IsPending : Priority → Bool
  | .primaryValidatorPending | .primaryDelegatorPending
  | .subnetValidatorPending | .subnetDelegatorPending => true
  | _ => false

/-- Go `Priority.IsValidator`. -/
def Priority.IsValidator : Priority → Bool
  | .primaryValidatorPending | .subnetValidatorPending
  | .primaryValidatorCurrent | .subnetValidatorCurrent => true
  | _ => false

/-- Modelled from the spec: `constants.PrimaryNetworkID` is not under `src/`;
the spec says only that "a distinguished constant denotes the primary
network". Its concrete bytes are irrelevant to the claims. -/
def PrimaryNetworkID : List Nat := List.replicate 32 0

/-- Modelled from the spec: `mockable.MaxTime` is not under `src/`; the spec
calls it "an implementation-defined infinite sentinel" end time. Only its
identity as a distinguished constant matters to the claims. -/
def mockableMaxTime : Int := 9223372036854775807

/-! ## The Staker record (Go `Staker` struct) -/

/-- Go `state.Staker`: one validator or delegator of the current or pending
set. Times and the staking period are `Int` instants/durations; the BLS
public key (a pointer, possibly nil) is an abstract `Option Nat`. -/
structure Staker where
  TxID : List Nat
  NodeID : List Nat
  PublicKey : Option Nat
  SubnetID : List Nat
  Weight : Nat
  StartTime : Int
  StakingPeriod : Int
  EndTime : Int
  PotentialReward : Nat
  NextTime : Int
  Priority : Priority
  deriving DecidableEq, Repr

/-- Go `(*Staker).Less`: strict comparison by `NextTime`, then by the numeric
priority value, then by `bytes.Compare` on the transaction IDs. -/
def Staker.Less (s than : Staker) : Bool :=
  if s.NextTime < than.NextTime then
    true
  else if than.NextTime < s.NextTime then
    false
  else if s.Priority.toNat < than.Priority.toNat then
    true
  else if than.Priority.toNat < s.Priority.toNat then
    false
  else
    bytesCompare s.TxID than.TxID = -1

/-! ## Staking transactions (arguments of the staker constructors)

Modelled from the spec: the `txs.Staker` and `txs.PreContinuousStakingStaker`
interfaces live in the `txs` package, not under `src/`. The spec says staker
creation reads the public key (whose extraction may fail, the only error
path), node ID, subnet ID, weight, priority, and either the staking period
(current stakers) or fixed start/end times (legacy pending stakers). Each
interface is modelled as a record of those observations, with `PubKeyErr`
recording whether `PublicKey()` returns an error. -/

/-- The `txs.Staker` interface as consumed by `NewCurrentStaker`. -/
structure TxsStaker where
  PubKeyErr : Bool
  PubKey : Option Nat
  NodeID : List Nat
  SubnetID : List Nat
  Weight : Nat
  StakingPeriod : Int
  CurrentPriority : Priority
  deriving DecidableEq, Repr

/-- The `txs.PreContinuousStakingStaker` interface as consumed by
`NewPendingStaker`. -/
structure PreContinuousStakingStaker where
  PubKeyErr : Bool
  PubKey : Option Nat
  NodeID : List Nat
  SubnetID : List Nat
  Weight : Nat
  StartTime : Int
  EndTime : Int
  PendingPriority : Priority
  deriving DecidableEq, Repr

/-! ## Staker lifecycle (Go `NewCurrentStaker` etc.) -/

/-- Go `NewCurrentStaker`: fails iff public-key extraction fails; otherwise
the new record starts at `startTime`, has the infinite end-time sentinel, and
is next evaluated one staking period after its start. -/
def NewCurrentStaker (txID : List Nat) (staker : TxsStaker)
    (startTime : Int) (potentialReward : Nat) : Option Staker :=
  if staker.PubKeyErr then
    none
  else
    some { TxID := txID
           NodeID := staker.NodeID
           PublicKey := staker.PubKey
           SubnetID := staker.SubnetID
           Weight := staker.Weight
           StartTime := startTime
           StakingPeriod := staker.StakingPeriod
           EndTime := mockableMaxTime
           PotentialReward := potentialReward
           NextTime := startTime + staker.StakingPeriod
           Priority := staker.CurrentPriority }

/-- Go `NewPendingStaker`: fails iff public-key extraction fails; otherwise
start/end times come from the transaction, the staking period is their
difference, and the record is next evaluated at its start time. (Go leaves
`PotentialReward` at its zero value.) -/
def NewPendingStaker (txID : List Nat)
    (staker : PreContinuousStakingStaker) : Option Staker :=
  if staker.PubKeyErr then
    none
  else
    some { TxID := txID
           NodeID := staker.NodeID
           PublicKey := staker.PubKey
           SubnetID := staker.SubnetID
           Weight := staker.Weight
           StartTime := staker.StartTime
           EndTime := staker.EndTime
           StakingPeriod := staker.EndTime - staker.StartTime
           PotentialReward := 0
           NextTime := staker.StartTime
           Priority := staker.PendingPriority }

/-- Go `ShiftStakerAheadInPlace`: move a current staker one staking period
ahead; a no-op for pending stakers and for stakers whose next time already
equals their end time. (The Go function mutates in place; the model returns
the updated record.) -/
def ShiftStakerAheadInPlace (s : Staker) : Staker :=
  if s.Priority.IsPending then
    s
  else if s.NextTime = s.EndTime then
    s
  else
    { s with StartTime := s.StartTime + s.StakingPeriod
             NextTime := s.NextTime + s.StakingPeriod }

/-- The `candidateStopTime` local of Go `(*Staker).EarliestStopTime`:
`NextTime`, pushed one staking period ahead for primary-network
validators. -/
def Staker.candidateStopTime (s : Staker) : Int :=
  if s.Priority.IsValidator ∧ s.SubnetID = PrimaryNetworkID then
    s.NextTime + s.StakingPeriod
  else
    s.NextTime

/-- Go `(*Staker).EarliestStopTime`: primary-network validators get one extra
period of notice; the result is capped at `EndTime`. -/
def Staker.EarliestStopTime (s : Staker) : Int :=
  if s.candidateStopTime < s.EndTime then s.candidateStopTime else s.EndTime

/-- The `for ; end.Before(stopTime); end = end.Add(s.StakingPeriod)` loop of
Go `MarkStakerForRemovalInPlaceBeforeTime`, starting from `e`. The Go loop
terminates exactly when the staking period is positive (or the guard fails at
entry); the model's measure makes it total by also stopping when
`period ≤ 0`, where it agrees with Go on every terminating run. -/
def advanceEnd (stopTime period e : Int) : Int :=
  if h : 0 < period ∧ e < stopTime then
    advanceEnd stopTime period (e + period)
  else
    e
termination_by (stopTime - e).toNat
decreasing_by
  obtain ⟨h1, h2⟩ := h
  omega

/-- Go `MarkStakerForRemovalInPlaceBeforeTime`: when `stopTime` precedes the
current end time, walk `end` forward from `NextTime` by staking periods until
it is not before `stopTime`, and make that the new end time. -/
def MarkStakerForRemovalInPlaceBeforeTime (s : Staker) (stopTime : Int) :
    Staker :=
  if stopTime < s.EndTime then
    { s with EndTime := advanceEnd stopTime s.StakingPeriod s.NextTime }
  else
    s

/-! ## Witness fixtures: concrete records used to instantiate the theorems -/

/-- A concrete current-set staker used by witnesses. -/
def stakerA : Staker :=
  { TxID := [0], NodeID := List.replicate 20 7, PublicKey := some 1
    SubnetID := PrimaryNetworkID, Weight := 5, StartTime := 0
    StakingPeriod := 100, EndTime := 10000, PotentialReward := 9
    NextTime := 0, Priority := .primaryValidatorCurrent }

/-- Like `stakerA` but with a larger transaction ID. -/
def stakerB : Staker := { stakerA with TxID := [1] }

/-- Like `stakerA` but with a yet larger transaction ID. -/
def stakerC : Staker := { stakerA with TxID := [2] }

/-- A concrete staking transaction used by witnesses. -/
def txsStakerA : TxsStaker :=
  { PubKeyErr := false, PubKey := some 1, NodeID := List.replicate 20 7
    SubnetID := PrimaryNetworkID, Weight := 5, StakingPeriod := 100
    CurrentPriority := .primaryValidatorCurrent }

/-- A concrete legacy pending staking transaction used by witnesses. -/
def pendingStakerA : PreContinuousStakingStaker :=
  { PubKeyErr := false, PubKey := some 1, NodeID := List.replicate 20 7
    SubnetID := PrimaryNetworkID, Weight := 5, StartTime := 50
    EndTime := 450, PendingPriority := .primaryValidatorPending }

/-! ## Helper lemmas: `bytesCompare` is a three-way total order -/

lemma bytesCompare_cons (a b : Nat) (as bs : List Nat) :
    bytesCompare (a :: as) (b :: bs) =
      if a < b then -1 else if b < a then 1 else bytesCompare as bs := rfl

lemma bytesCompare_self (a : List Nat) : bytesCompare a a = 0 := by
  induction a with
  | nil => rfl
  | cons x xs ih => simp [bytesCompare, ih]

lemma bytesCompare_eq_zero_iff (a b : List Nat) :
    bytesCompare a b = 0 ↔ a = b := by
  induction a generalizing b with
  | nil => cases b <;> simp [bytesCompare]
  | cons x xs ih =>
    cases b with
    | nil => simp [bytesCompare]
    | cons y ys =>
      simp only [bytesCompare]
      split_ifs with h1 h2
      · simp
        omega
      · simp
        omega
      · have hxy : x = y := by omega
        subst hxy
        simp [ih]

lemma bytesCompare_neg (a b : List Nat) :
    bytesCompare a b = - bytesCompare b a := by
  induction a generalizing b with
  | nil => cases b <;> simp [bytesCompare]
  | cons x xs ih =>
    cases b with
    | nil => simp [bytesCompare]
    | cons y ys =>
      simp only [bytesCompare]
      split_ifs with h1 h2 <;> first | omega | exact ih ys

lemma bytesCompare_mem (a b : List Nat) :
    bytesCompare a b = -1 ∨ bytesCompare a b = 0 ∨ bytesCompare a b = 1 := by
  induction a generalizing b with
  | nil => cases b <;> simp [bytesCompare]
  | cons x xs ih =>
    cases b with
    | nil => simp [bytesCompare]
    | cons y ys =>
      simp only [bytesCompare]
      split_ifs <;> simp [ih ys]

lemma bytesCompare_trans (a : List Nat) :
    ∀ (b c : List Nat), bytesCompare a b = -1 → bytesCompare b c = -1 →
      bytesCompare a c = -1 := by
  induction a with
  | nil =>
    intro b c hab hbc
    cases b with
    | nil => simp [bytesCompare] at hab
    | cons y ys =>
      cases c with
      | nil => simp [bytesCompare] at hbc
      | cons z zs => simp [bytesCompare]
  | cons x xs ih =>
    intro b c hab hbc
    cases b with
    | nil => simp [bytesCompare] at hab
    | cons y ys =>
      cases c with
      | nil => simp [bytesCompare] at hbc
      | cons z zs =>
        simp only [bytesCompare] at hab hbc ⊢
        split_ifs at hab hbc ⊢ <;> first | rfl | omega | exact ih ys zs hab hbc

/-- The numeric priority ordinal determines the tag. -/
lemma Priority.toNat_inj (p q : Priority) (h : p.toNat = q.toNat) : p = q := by
  cases p <;> cases q <;> first | rfl | exact absurd h (by decide)

/-- Unfolding of `Staker.Less` into its three-level lexicographic meaning. -/
lemma Staker.less_iff (a b : Staker) :
    a.Less b = true ↔
      (a.NextTime < b.NextTime ∨
        (a.NextTime = b.NextTime ∧
          (a.Priority.toNat < b.Priority.toNat ∨
            (a.Priority.toNat = b.Priority.toNat ∧
              bytesCompare a.TxID b.TxID = -1)))) := by
  unfold Staker.Less
  split_ifs with h1 h2 h3 h4
  · simp [h1]
  · simp only [Bool.false_eq_true, false_iff]
    rintro (h | ⟨he, _⟩) <;> omega
  · simp only [true_iff]
    exact Or.inr ⟨by omega, Or.inl h3⟩
  · simp only [Bool.false_eq_true, false_iff]
    rintro (h | ⟨he, hp | ⟨hp, _⟩⟩) <;> omega
  · simp only [decide_eq_true_eq]
    constructor
    · intro hc
      exact Or.inr ⟨by omega, Or.inr ⟨by omega, hc⟩⟩
    · rintro (h | ⟨he, hp | ⟨hp, hc⟩⟩)
      · omega
      · omega
      · exact hc

/-- C1: `Staker.Less` is a strict total order keyed by
`(NextTime, Priority, TxID)`: it is irreflexive and transitive; for every
pair of records whose key triples differ, exactly one of `Less a b` and
`Less b a` holds; and it compares first by earlier `NextTime`, then by
smaller numeric `Priority` value, then by lexicographically smaller `TxID`
byte sequence. -/
theorem stakerLess_strict_total_order :
    (∀ a : Staker, a.Less a = false) ∧
    (∀ a b c : Staker, a.Less b = true → b.Less c = true →
      a.Less c = true) ∧
    (∀ a b : Staker,
      (a.NextTime, a.Priority, a.TxID) ≠ (b.NextTime, b.Priority, b.TxID) →
      (a.Less b = true ↔ ¬ (b.Less a = true))) ∧
    (∀ a b : Staker, a.Less b = true ↔
      (a.NextTime < b.NextTime ∨
        (a.NextTime = b.NextTime ∧
          (a.Priority.toNat < b.Priority.toNat ∨
            (a.Priority.toNat = b.Priority.toNat ∧
              bytesCompare a.TxID b.TxID = -1))))) := by
  refine ⟨?_, ?_, ?_, Staker.less_iff⟩
  · intro a
    by_contra h
    have ha : a.Less a = true := by
      cases hc : a.Less a
      · exact absurd hc h
      · rfl
    rw [Staker.less_iff] at ha
    have hself := bytesCompare_self a.TxID
    rcases ha with h1 | ⟨_, h2 | ⟨_, h3⟩⟩ <;> omega
  · intro a b c hab hbc
    rw [Staker.less_iff] at hab hbc ⊢
    rcases hab with h1 | ⟨he1, hp1 | ⟨hq1, hc1⟩⟩ <;>
      rcases hbc with h2 | ⟨he2, hp2 | ⟨hq2, hc2⟩⟩
    · exact Or.inl (by omega)
    · exact Or.inl (by omega)
    · exact Or.inl (by omega)
    · exact Or.inl (by omega)
    · exact Or.inr ⟨by omega, Or.inl (by omega)⟩
    · exact Or.inr ⟨by omega, Or.inl (by omega)⟩
    · exact Or.inl (by omega)
    · exact Or.inr ⟨by omega, Or.inl (by omega)⟩
    · exact Or.inr ⟨by omega, Or.inr ⟨by omega,
        bytesCompare_trans _ _ _ hc1 hc2⟩⟩
  · intro a b hne
    constructor
    · intro hab hba
      rw [Staker.less_iff] at hab hba
      have hneg := bytesCompare_neg a.TxID b.TxID
      rcases hab with h1 | ⟨he1, hp1 | ⟨hq1, hc1⟩⟩ <;>
        rcases hba with h2 | ⟨he2, hp2 | ⟨hq2, hc2⟩⟩ <;> omega
    · intro hba
      by_contra hab
      rw [Staker.less_iff] at hab hba
      push_neg at hab hba
      have hne' : a.NextTime = b.NextTime := by
        rcases hab with ⟨h1, _⟩
        rcases hba with ⟨h2, _⟩
        omega
      have hpq : a.Priority.toNat = b.Priority.toNat := by
        have h1 := (hab.2 hne').1
        have h2 := (hba.2 hne'.symm).1
        omega
      have hc1 := (hab.2 hne').2 hpq
      have hc2 := (hba.2 hne'.symm).2 hpq.symm
      have hneg := bytesCompare_neg a.TxID b.TxID
      have hmem := bytesCompare_mem a.TxID b.TxID
      have hzero : bytesCompare a.TxID b.TxID = 0 := by omega
      have htx : a.TxID = b.TxID := (bytesCompare_eq_zero_iff _ _).mp hzero
      exact hne (by
        rw [hne', htx, Priority.toNat_inj a.Priority b.Priority hpq])

/-- C1 witness: the order instantiated on concrete stakers that tie on
`NextTime` and `Priority` and are separated by `TxID`. -/
theorem stakerLess_strict_total_order_witness :
    stakerA.Less stakerC = true ∧
    (stakerA.Less stakerB = true ↔ ¬ (stakerB.Less stakerA = true)) :=
  ⟨stakerLess_strict_total_order.2.1 stakerA stakerB stakerC
      (by decide) (by decide),
   stakerLess_strict_total_order.2.2.1 stakerA stakerB (by decide)⟩

/-! ## Helper lemmas: big-endian encoding and numeric order -/

lemma putUint64BE_length (n : Nat) : (putUint64BE n).length = 8 := rfl

lemma putUint64BE_mem_lt (n : Nat) : ∀ x ∈ putUint64BE n, x < 256 := by
  intro x hx
  simp only [putUint64BE, List.mem_cons, List.not_mem_nil, or_false] at hx
  rcases hx with h | h | h | h | h | h | h | h <;> subst h <;> omega

lemma uint64BE_putUint64BE_append (n : Nat) (rest : List Nat) :
    uint64BE (putUint64BE n ++ rest) = n % 2 ^ 64 := by
  simp [putUint64BE, uint64BE, List.take, List.foldl]
  omega

lemma flip64_lt (h : Nat) : flip64 h < 2 ^ 64 := by
  unfold flip64
  omega

lemma flip64_flip64 (h : Nat) (hh : h < 2 ^ 64) : flip64 (flip64 h) = h := by
  unfold flip64
  omega

lemma beVal_lt_pow (bs : List Nat) (h : ∀ x ∈ bs, x < 256) :
    beVal bs < 256 ^ bs.length := by
  induction bs with
  | nil => simp [beVal]
  | cons b bs ih =>
    have hb : b < 256 := h b (List.mem_cons_self b bs)
    have hbs := ih (fun x hx => h x (List.mem_cons_of_mem b hx))
    have h1 : b * 256 ^ bs.length + beVal bs < (b + 1) * 256 ^ bs.length := by
      nlinarith
    have h2 : (b + 1) * 256 ^ bs.length ≤ 256 * 256 ^ bs.length :=
      Nat.mul_le_mul_right _ hb
    calc beVal (b :: bs) = b * 256 ^ bs.length + beVal bs := rfl
      _ < (b + 1) * 256 ^ bs.length := h1
      _ ≤ 256 * 256 ^ bs.length := h2
      _ = 256 ^ (b :: bs).length := by rw [List.length_cons]; ring

lemma beVal_putUint64BE (n : Nat) : beVal (putUint64BE n) = n % 2 ^ 64 := by
  norm_num [putUint64BE, beVal]
  omega

/-- Byte strings of equal length compare lexicographically as their
big-endian values do (stated for the strictly-greater direction, with
arbitrary suffixes). -/
lemma bytesCompare_eq_one_of_beVal_lt (as : List Nat) :
    ∀ (bs : List Nat), as.length = bs.length →
    (∀ x ∈ as, x < 256) → (∀ x ∈ bs, x < 256) →
    beVal bs < beVal as →
    ∀ (r s : List Nat), bytesCompare (as ++ r) (bs ++ s) = 1 := by
  induction as with
  | nil =>
    intro bs hlen _ _ hv
    have hbs : bs = [] := by simpa using hlen.symm
    subst hbs
    simp [beVal] at hv
  | cons a as ih =>
    intro bs hlen ha hb hv r s
    cases bs with
    | nil => simp at hlen
    | cons b bs =>
      have hL : as.length = bs.length := by simpa using hlen
      have has : ∀ x ∈ as, x < 256 :=
        fun x hx => ha x (List.mem_cons_of_mem a hx)
      have hbs : ∀ x ∈ bs, x < 256 :=
        fun x hx => hb x (List.mem_cons_of_mem b hx)
      have hvas := beVal_lt_pow as has
      rw [hL] at hvas
      have hv' : b * 256 ^ bs.length + beVal bs
          < a * 256 ^ bs.length + beVal as := by
        have hv2 := hv
        simp only [beVal, hL] at hv2
        exact hv2
      rw [List.cons_append, List.cons_append, bytesCompare_cons]
      by_cases h1 : a < b
      · exfalso
        have h3 : (a + 1) * 256 ^ bs.length ≤ b * 256 ^ bs.length :=
          Nat.mul_le_mul_right _ (by omega)
        nlinarith
      · simp only [h1, if_false]
        by_cases h2 : b < a
        · simp [h2]
        · have hab : a = b := Nat.le_antisymm (Nat.not_lt.mp h2)
            (Nat.not_lt.mp h1)
          subst hab
          simp only [h2, if_false]
          exact ih bs hL has hbs (by omega) r s

/-- Dropping an equal prefix does not change a lexicographic comparison. -/
lemma bytesCompare_append_left (p a b : List Nat) :
    bytesCompare (p ++ a) (p ++ b) = bytesCompare a b := by
  induction p with
  | nil => rfl
  | cons x xs ih => simp [bytesCompare_cons, ih]

/-- C2: the diff codec round-trips. For every 32-byte subnet ID, 64-bit
height and node ID, `unmarshalDiffKey` undoes `marshalDiffKey` (with the
height un-flipped), and for every weight diff `unmarshalWeightDiff` undoes
`marshalWeightDiff`, preserving the `Decrease` flag and the `Amount`. -/
theorem diffCodec_roundtrip :
    (∀ (subnetID nodeID : List Nat) (height : Nat),
      subnetID.length = idLen → height < 2 ^ 64 →
      unmarshalDiffKey (marshalDiffKey subnetID height nodeID) =
        some (subnetID, height, nodeID)) ∧
    (∀ diff : ValidatorWeightDiff, diff.Amount < 2 ^ 64 →
      unmarshalWeightDiff (marshalWeightDiff diff) = some diff) := by
  constructor
  · intro subnetID nodeID height hlen hh
    have hassoc : marshalDiffKey subnetID height nodeID =
        subnetID ++ (packIterableHeight height ++ nodeID) := by
      simp [marshalDiffKey]
    have hklen : (marshalDiffKey subnetID height nodeID).length =
        startDiffKeyLength + nodeID.length := by
      simp [marshalDiffKey, packIterableHeight, putUint64BE,
        startDiffKeyLength, idLen, uint64Size, hlen]
      omega
    have htake : (marshalDiffKey subnetID height nodeID).take idLen
        = subnetID := by
      rw [hassoc, ← hlen, List.take_left]
    have hdrop32 : (marshalDiffKey subnetID height nodeID).drop idLen
        = packIterableHeight height ++ nodeID := by
      rw [hassoc, ← hlen, List.drop_left]
    have hdrop40 : (marshalDiffKey subnetID height nodeID).drop
        diffKeyNodeIDOffset = nodeID := by
      have h40 : (subnetID ++ packIterableHeight height).length =
          diffKeyNodeIDOffset := by
        simp [packIterableHeight, putUint64BE, diffKeyNodeIDOffset, idLen,
          uint64Size, hlen]
      rw [marshalDiffKey, ← h40, List.drop_left]
    have hheight : unpackIterableHeight
        ((marshalDiffKey subnetID height nodeID).drop idLen) = height := by
      rw [hdrop32, packIterableHeight, unpackIterableHeight,
        uint64BE_putUint64BE_append, Nat.mod_eq_of_lt (flip64_lt height),
        flip64_flip64 height hh]
    rw [unmarshalDiffKey, if_neg (by omega), htake, hheight, hdrop40]
  · intro diff hA
    have hval : (marshalWeightDiff diff).length = weightValueLength := by
      simp [marshalWeightDiff, putUint64BE, weightValueLength, boolSize,
        uint64Size]
    rw [unmarshalWeightDiff, if_neg (by omega)]
    have hdrop : (marshalWeightDiff diff).drop boolSize =
        putUint64BE diff.Amount := rfl
    have hamount : uint64BE ((marshalWeightDiff diff).drop boolSize) =
        diff.Amount := by
      rw [hdrop, ← List.append_nil (putUint64BE diff.Amount),
        uint64BE_putUint64BE_append, Nat.mod_eq_of_lt hA]
    have hhead : (marshalWeightDiff diff).headI =
        if diff.Decrease then boolTrue else 0 := rfl
    rw [hamount, hhead]
    cases hD : diff.Decrease <;>
      simp [boolTrue, hD] <;>
      cases diff <;> simp_all

/-- C2 witness: the round trip evaluated on a concrete key and value. -/
theorem diffCodec_roundtrip_witness :
    unmarshalDiffKey
        (marshalDiffKey (List.replicate 32 3) 5 (List.replicate 20 7)) =
      some (List.replicate 32 3, 5, List.replicate 20 7) ∧
    unmarshalWeightDiff
        (marshalWeightDiff { Decrease := true, Amount := 300 }) =
      some { Decrease := true, Amount := 300 } :=
  ⟨diffCodec_roundtrip.1 (List.replicate 32 3) (List.replicate 20 7) 5
      (by decide) (by decide),
   diffCodec_roundtrip.2 { Decrease := true, Amount := 300 } (by decide)⟩

/-- C3: encoded diff keys sort in descending height order: with the subnet
and node fixed, a smaller height yields a lexicographically strictly greater
key, because the height field is stored bit-flipped big-endian. -/
theorem diffKey_height_descending :
    ∀ (subnetID nodeID : List Nat) (h1 h2 : Nat),
      subnetID.length = idLen → h1 < h2 → h2 < 2 ^ 64 →
      bytesCompare (marshalDiffKey subnetID h1 nodeID)
        (marshalDiffKey subnetID h2 nodeID) = 1 := by
  intro subnetID nodeID h1 h2 hlen hlt hbound
  have hassoc1 : marshalDiffKey subnetID h1 nodeID =
      subnetID ++ (putUint64BE (flip64 h1) ++ nodeID) := by
    simp [marshalDiffKey, packIterableHeight]
  have hassoc2 : marshalDiffKey subnetID h2 nodeID =
      subnetID ++ (putUint64BE (flip64 h2) ++ nodeID) := by
    simp [marshalDiffKey, packIterableHeight]
  rw [hassoc1, hassoc2, bytesCompare_append_left]
  apply bytesCompare_eq_one_of_beVal_lt
  · rw [putUint64BE_length, putUint64BE_length]
  · exact putUint64BE_mem_lt _
  · exact putUint64BE_mem_lt _
  · rw [beVal_putUint64BE, beVal_putUint64BE,
      Nat.mod_eq_of_lt (flip64_lt h1), Nat.mod_eq_of_lt (flip64_lt h2)]
    unfold flip64
    omega

/-- C3 witness: two concrete keys for heights 3 < 4 under the same subnet
and node IDs, with the height-3 key the lexicographically greater. -/
theorem diffKey_height_descending_witness :
    bytesCompare (marshalDiffKey (List.replicate 32 3) 3 (List.replicate 20 7))
      (marshalDiffKey (List.replicate 32 3) 4 (List.replicate 20 7)) = 1 :=
  diffKey_height_descending (List.replicate 32 3) (List.replicate 20 7) 3 4
    (by decide) (by decide) (by decide)

/-- C4 counterexample: on a 59-byte key `unmarshalDiffKey` does NOT return a
malformed-key error; it succeeds, returning the trailing 19 bytes as the
node ID (59 is not shorter than the 40-byte start-key length, the only case
the code rejects). -/
theorem unmarshalDiffKey_length59_no_error :
    unmarshalDiffKey (List.replicate 59 0) =
      some (List.replicate 32 0, 2 ^ 64 - 1, List.replicate 19 0) := by
  decide

/-- C4 (amended): `unmarshalDiffKey` returns the malformed-key error exactly
when the input is shorter than the 40-byte start-key length
(`startDiffKeyLength`); any input of length 59 is accepted and decodes to
the first 32 bytes, the un-flipped height, and the trailing 19 bytes as the
node ID. -/
theorem unmarshalDiffKey_error_iff :
    (∀ key : List Nat,
      unmarshalDiffKey key = none ↔ key.length < startDiffKeyLength) ∧
    (∀ key : List Nat, key.length = 59 →
      unmarshalDiffKey key =
        some (key.take idLen, unpackIterableHeight (key.drop idLen),
          key.drop diffKeyNodeIDOffset)) := by
  constructor
  · intro key
    unfold unmarshalDiffKey
    split_ifs with h
    · simp [h]
    · simp [h]
  · intro key hlen
    unfold unmarshalDiffKey
    rw [if_neg (by simp [hlen, startDiffKeyLength, idLen, uint64Size])]

/-- C4 witness: the amended behaviour evaluated on a concrete 59-byte key. -/
theorem unmarshalDiffKey_error_iff_witness :
    unmarshalDiffKey (List.replicate 59 5) =
      some ((List.replicate 59 5).take idLen,
        unpackIterableHeight ((List.replicate 59 5).drop idLen),
        (List.replicate 59 5).drop diffKeyNodeIDOffset) :=
  unmarshalDiffKey_error_iff.2 (List.replicate 59 5) (by decide)

/-- C5: `NewCurrentStaker` fails exactly when public-key extraction fails
(returning no record), and on success builds the record with the infinite
end-time sentinel, `StartTime = startTime`,
`NextTime = startTime + StakingPeriod`, and all remaining fields from the
arguments. -/
theorem newCurrentStaker_spec :
    ∀ (txID : List Nat) (staker : TxsStaker) (startTime : Int)
      (potentialReward : Nat),
      (NewCurrentStaker txID staker startTime potentialReward = none ↔
        staker.PubKeyErr = true) ∧
      (staker.PubKeyErr = false →
        NewCurrentStaker txID staker startTime potentialReward =
          some { TxID := txID
                 NodeID := staker.NodeID
                 PublicKey := staker.PubKey
                 SubnetID := staker.SubnetID
                 Weight := staker.Weight
                 StartTime := startTime
                 StakingPeriod := staker.StakingPeriod
                 EndTime := mockableMaxTime
                 PotentialReward := potentialReward
                 NextTime := startTime + staker.StakingPeriod
                 Priority := staker.CurrentPriority }) := by
  intro txID staker startTime potentialReward
  unfold NewCurrentStaker
  cases h : staker.PubKeyErr <;> simp [h]

/-- C5 witness: a successful construction from a concrete transaction. -/
theorem newCurrentStaker_spec_witness :
    NewCurrentStaker [0] txsStakerA 0 9 =
      some { TxID := [0]
             NodeID := List.replicate 20 7
             PublicKey := some 1
             SubnetID := PrimaryNetworkID
             Weight := 5
             StartTime := 0
             StakingPeriod := 100
             EndTime := mockableMaxTime
             PotentialReward := 9
             NextTime := 0 + 100
             Priority := .primaryValidatorCurrent } :=
  (newCurrentStaker_spec [0] txsStakerA 0 9).2 (by decide)

/-- C6: `ShiftStakerAheadInPlace` leaves the record unchanged for pending
priorities and when `NextTime = EndTime`; otherwise it advances `StartTime`
and `NextTime` by one `StakingPeriod` and changes nothing else. -/
theorem shiftStakerAhead_spec :
    ∀ s : Staker,
      (s.Priority.IsPending = true → ShiftStakerAheadInPlace s = s) ∧
      (s.NextTime = s.EndTime → ShiftStakerAheadInPlace s = s) ∧
      (s.Priority.IsPending = false → s.NextTime ≠ s.EndTime →
        ShiftStakerAheadInPlace s =
          { s with StartTime := s.StartTime + s.StakingPeriod
                   NextTime := s.NextTime + s.StakingPeriod }) := by
  intro s
  unfold ShiftStakerAheadInPlace
  refine ⟨fun hp => by simp [hp], fun he => ?_, fun hp he => by simp [hp, he]⟩
  split_ifs <;> simp_all

/-- C6 witness: a concrete current staker away from its end of life is
shifted by one period. -/
theorem shiftStakerAhead_spec_witness :
    ShiftStakerAheadInPlace stakerA =
      { stakerA with StartTime := stakerA.StartTime + stakerA.StakingPeriod
                     NextTime := stakerA.NextTime + stakerA.StakingPeriod } :=
  (shiftStakerAhead_spec stakerA).2.2 (by decide) (by decide)

/-- C8: `EarliestStopTime` is `min (NextTime + StakingPeriod) EndTime` for
primary-network validators and `min NextTime EndTime` for everyone else, and
is never after `EndTime`. -/
theorem earliestStopTime_spec :
    ∀ s : Staker,
      (s.Priority.IsValidator = true → s.SubnetID = PrimaryNetworkID →
        s.EarliestStopTime = min (s.NextTime + s.StakingPeriod) s.EndTime) ∧
      (¬ (s.Priority.IsValidator = true ∧ s.SubnetID = PrimaryNetworkID) →
        s.EarliestStopTime = min s.NextTime s.EndTime) ∧
      s.EarliestStopTime ≤ s.EndTime := by
  intro s
  unfold Staker.EarliestStopTime Staker.candidateStopTime
  refine ⟨fun hv hs => ?_, fun hn => ?_, ?_⟩
  · have hc : (s.Priority.IsValidator = true ∧
        s.SubnetID = PrimaryNetworkID) := ⟨hv, hs⟩
    simp only [if_pos hc, min_def]
    split_ifs <;> omega
  · simp only [if_neg hn, min_def]
    split_ifs <;> omega
  · split_ifs <;> omega

/-- C8 witness: a concrete primary-network validator stops at
`NextTime + StakingPeriod`, which is before its end time. -/
theorem earliestStopTime_spec_witness :
    stakerA.EarliestStopTime =
      min (stakerA.NextTime + stakerA.StakingPeriod) stakerA.EndTime :=
  (earliestStopTime_spec stakerA).1 (by decide) (by decide)

/-- C9: `NewPendingStaker` fails exactly when public-key extraction fails;
on success the record keeps the transaction's start and end times, with
`NextTime = StartTime` and `StakingPeriod = EndTime - StartTime`. -/
theorem newPendingStaker_spec :
    ∀ (txID : List Nat) (staker : PreContinuousStakingStaker),
      (NewPendingStaker txID staker = none ↔ staker.PubKeyErr = true) ∧
      (staker.PubKeyErr = false →
        NewPendingStaker txID staker =
          some { TxID := txID
                 NodeID := staker.NodeID
                 PublicKey := staker.PubKey
                 SubnetID := staker.SubnetID
                 Weight := staker.Weight
                 StartTime := staker.StartTime
                 EndTime := staker.EndTime
                 StakingPeriod := staker.EndTime - staker.StartTime
                 PotentialReward := 0
                 NextTime := staker.StartTime
                 Priority := staker.PendingPriority }) := by
  intro txID staker
  unfold NewPendingStaker
  cases h : staker.PubKeyErr <;> simp [h]

/-- C9 witness: a successful pending construction from a concrete
transaction with start 50 and end 450 (staking period 400). -/
theorem newPendingStaker_spec_witness :
    NewPendingStaker [0] pendingStakerA =
      some { TxID := [0]
             NodeID := List.replicate 20 7
             PublicKey := some 1
             SubnetID := PrimaryNetworkID
             Weight := 5
             StartTime := 50
             EndTime := 450
             StakingPeriod := 450 - 50
             PotentialReward := 0
             NextTime := 50
             Priority := .primaryValidatorPending } :=
  (newPendingStaker_spec [0] pendingStakerA).2 (by decide)

/-- The removal loop, characterised: for a positive period, `advanceEnd`
returns the iterate `e + k * period` of the first index `k` at which the
loop guard `end.Before(stopTime)` fails, the guard having held at every
earlier index. -/
lemma advanceEnd_spec (stop period e : Int) (hp : 0 < period) :
    ∃ k : Nat, advanceEnd stop period e = e + (k : Int) * period ∧
      stop ≤ e + (k : Int) * period ∧
      ∀ j : Nat, j < k → e + (j : Int) * period < stop := by
  by_cases hlt : e < stop
  · obtain ⟨k, hk1, hk2, hk3⟩ := advanceEnd_spec stop period (e + period) hp
    refine ⟨k + 1, ?_, ?_, ?_⟩
    · rw [advanceEnd, dif_pos ⟨hp, hlt⟩, hk1]
      push_cast
      ring
    · calc stop ≤ e + period + (k : Int) * period := hk2
        _ = e + ((k : Nat) + 1 : Int) * period := by ring
        _ = e + (((k + 1 : Nat) : Int)) * period := by push_cast; ring
    · intro j hj
      cases j with
      | zero => simpa using hlt
      | succ j' =>
        have hj' : j' < k := by omega
        have h := hk3 j' hj'
        calc e + ((j' + 1 : Nat) : Int) * period
            = e + period + (j' : Int) * period := by push_cast; ring
          _ < stop := h
  · refine ⟨0, ?_, ?_, ?_⟩
    · rw [advanceEnd, dif_neg (by omega)]
      simp
    · simpa using not_lt.mp hlt
    · intro j hj
      omega
termination_by (stop - e).toNat
decreasing_by omega

/-- C7: for a staker with a positive staking period,
`MarkStakerForRemovalInPlaceBeforeTime` leaves the record unchanged when
`stopTime` is not before the current end time; otherwise it changes only
`EndTime`, setting it to the smallest value of the form
`NextTime + k * StakingPeriod` (`k : Nat`) that is not before `stopTime`. -/
theorem markForRemoval_spec :
    ∀ (s : Staker) (stopTime : Int), 0 < s.StakingPeriod →
      (¬ stopTime < s.EndTime →
        MarkStakerForRemovalInPlaceBeforeTime s stopTime = s) ∧
      (stopTime < s.EndTime →
        ∃ k : Nat,
          MarkStakerForRemovalInPlaceBeforeTime s stopTime =
            { s with EndTime := s.NextTime + (k : Int) * s.StakingPeriod } ∧
          stopTime ≤ s.NextTime + (k : Int) * s.StakingPeriod ∧
          ∀ j : Nat,
            stopTime ≤ s.NextTime + (j : Int) * s.StakingPeriod →
            s.NextTime + (k : Int) * s.StakingPeriod ≤
              s.NextTime + (j : Int) * s.StakingPeriod) := by
  intro s stopTime hp
  constructor
  · intro hns
    unfold MarkStakerForRemovalInPlaceBeforeTime
    rw [if_neg hns]
  · intro hs
    obtain ⟨k, hk1, hk2, hk3⟩ :=
      advanceEnd_spec stopTime s.StakingPeriod s.NextTime hp
    refine ⟨k, ?_, hk2, ?_⟩
    · unfold MarkStakerForRemovalInPlaceBeforeTime
      rw [if_pos hs, hk1]
    · intro j hj
      have hkj : k ≤ j := by
        by_contra hc
        push_neg at hc
        exact absurd hj (not_le.mpr (hk3 j hc))
      have hkj' : (k : Int) ≤ (j : Int) := by exact_mod_cast hkj
      have hmul : (k : Int) * s.StakingPeriod ≤
          (j : Int) * s.StakingPeriod :=
        mul_le_mul_of_nonneg_right hkj' (le_of_lt hp)
      linarith

/-- C7 witness: with `NextTime = 0`, `StakingPeriod = 100`,
`EndTime = 10000` and `stopTime = 250`, the new end time is `300` (the
first period boundary at or after the requested stop). -/
theorem markForRemoval_spec_witness :
    (0 : Int) < stakerA.StakingPeriod ∧ (250 : Int) < stakerA.EndTime ∧
    (MarkStakerForRemovalInPlaceBeforeTime stakerA 250).EndTime = 300 := by
  refine ⟨by decide, by decide, ?_⟩
  obtain ⟨k, hk1, hk2, hk3⟩ :=
    (markForRemoval_spec stakerA 250 (by decide)).2 (by decide)
  have h3 := hk3 3 (by norm_num [stakerA])
  rw [hk1]
  simp only [stakerA] at hk2 h3 ⊢
  omega

/-- C10: whenever the staking period is strictly positive the removal loop
of `MarkStakerForRemovalInPlaceBeforeTime` terminates: after finitely many
increments (`k` of them) the running value `NextTime + k * StakingPeriod`
is no longer before `stopTime` — the guard held at each of the `k` earlier
iterations — and the loop's result is that iterate. -/
theorem markForRemoval_terminates :
    ∀ (s : Staker) (stopTime : Int), 0 < s.StakingPeriod →
      ∃ k : Nat,
        ¬ (s.NextTime + (k : Int) * s.StakingPeriod < stopTime) ∧
        (∀ j : Nat, j < k →
          s.NextTime + (j : Int) * s.StakingPeriod < stopTime) ∧
        advanceEnd stopTime s.StakingPeriod s.NextTime =
          s.NextTime + (k : Int) * s.StakingPeriod := by
  intro s stopTime hp
  obtain ⟨k, h1, h2, h3⟩ :=
    advanceEnd_spec stopTime s.StakingPeriod s.NextTime hp
  exact ⟨k, not_lt.mpr h2, h3, h1⟩

/-- C10 witness: the loop evaluated for a concrete staker and stop time. -/
theorem markForRemoval_terminates_witness :
    (0 : Int) < stakerA.StakingPeriod ∧
    ∃ k : Nat,
      ¬ (stakerA.NextTime + (k : Int) * stakerA.StakingPeriod < 250) ∧
      (∀ j : Nat, j < k →
        stakerA.NextTime + (j : Int) * stakerA.StakingPeriod < 250) ∧
      advanceEnd 250 stakerA.StakingPeriod stakerA.NextTime =
        stakerA.NextTime + (k : Int) * stakerA.StakingPeriod :=
  ⟨by decide, markForRemoval_terminates stakerA 250 (by decide)⟩
